import Mathlib

/-!
Verification of the MATLAB-compatibility layer of python-control
(file control/matlab/py): the functions margin, dcgain, damp and c2d.

The embedding works over exact rationals.  The functions that this layer
delegates to (control.margins.stability_margins, control.dtime.sample_system,
the LTI damp method, and the scipy/numpy conversion and inversion routines)
are not part of the excerpted source; definitions for them are modelled
from the specification and carry a doc comment saying so.  Transcendental
numerics (matrix exponentials, pole mapping by exp, frequency-response
evaluation of a model) are kept as explicit oracle parameters, so every
theorem about the dispatch and error structure holds for any realization
of those numeric cores.
-/

namespace ControlMatlab

/-- Error taxonomy of the layer, following the specification: wrong arity or
mismatched array lengths, a required matrix inverse that does not exist,
a SISO-only method applied to a non-SISO model, an intentionally
unimplemented method, plus generic type and value errors.  The `received`
field of `invalidArgument` carries the reported argument count when the
original message includes it. -/
inductive CtrlError where
  | invalidArgument (received : Option Nat) (msg : String)
  | singularConversion
  | unsupportedShape (msg : String)
  | notImplemented (methodName : String)
  | typeError (msg : String)
  | valueError (msg : String)
deriving DecidableEq, Repr

/-- Matrices as rows of rationals, mirroring numpy 2-d arrays. -/
abbrev Mat := List (List ℚ)

def dotQ (xs ys : List ℚ) : ℚ := (List.zipWith (fun a b => a * b) xs ys).sum

/-- Matrix product, as the numpy matrix product used by the source. -/
def matMul (x y : Mat) : Mat := x.map (fun r => y.transpose.map (dotQ r))

def matSub (x y : Mat) : Mat := List.zipWith (List.zipWith (fun a b => a - b)) x y

def matAdd (x y : Mat) : Mat := List.zipWith (List.zipWith (fun a b => a + b)) x y

def matScale (c : ℚ) (m : Mat) : Mat := m.map (fun r => r.map (fun a => c * a))

def matId (n : Nat) : Mat :=
  (List.range n).map (fun i => (List.range n).map (fun j => if i = j then (1 : ℚ) else 0))

def trace (m : Mat) : ℚ := (m.enum.map (fun x => x.2.getD x.1 0)).sum

/-- Determinant by cofactor expansion along the first row; the fuel argument
(the row count at the top call) makes the recursion structural so the kernel
can evaluate it. -/
def detFuel : Nat → Mat → ℚ
  | _, [] => 1
  | 0, _ => 0
  | fuel + 1, r :: rs =>
    (List.range r.length).foldl
      (fun acc j =>
        acc + (-1 : ℚ) ^ j * r.getD j 0 *
          detFuel fuel (rs.map (fun row => row.eraseIdx j)))
      0

def det (m : Mat) : ℚ := detFuel m.length m

/-- Modelled from the spec: the matrix inverse used by the source through
the numpy matrix property I, which raises a linear-algebra error (the
spec's SingularConversionError) when the matrix is singular.  Here the
inverse is the adjugate divided by the determinant, and `none` is the
failure case for a non-square or singular matrix. -/
def matInv (m : Mat) : Option Mat :=
  let n := m.length
  if (m.all (fun r => r.length == n)) && (det m != 0) then
    some ((List.range n).map (fun i => (List.range n).map (fun j =>
      (-1 : ℚ) ^ (i + j) * det ((m.eraseIdx j).map (fun row => row.eraseIdx i)) / det m)))
  else none

/-- State-space model: matrices A, B, C, D and a sample time (`none` means
continuous time), following the data model of the spec. -/
structure StateSpaceSys where
  A : Mat
  B : Mat
  C : Mat
  D : Mat
  dt : Option ℚ
deriving DecidableEq, Repr

/-- Transfer-function model (single channel: the claims only exercise SISO
transfer functions): numerator and denominator coefficients in descending
powers, and a sample time. -/
structure TFSys where
  num : List ℚ
  den : List ℚ
  dt : Option ℚ
deriving DecidableEq, Repr

/-- An LTI model is either a state-space or a transfer-function object. -/
inductive LtiModel where
  | ss (s : StateSpaceSys)
  | tf (t : TFSys)
deriving DecidableEq, Repr

def isSS : LtiModel → Bool
  | .ss _ => true
  | .tf _ => false

def ltiDt : LtiModel → Option ℚ
  | .ss s => s.dt
  | .tf t => t.dt

/-- Polynomials with ascending coefficients, used internally by the
conversion routines. -/
abbrev Poly := List ℚ

def polyAdd : Poly → Poly → Poly
  | [], q => q
  | p, [] => p
  | a :: p, b :: q => (a + b) :: polyAdd p q

def polyScale (c : ℚ) (p : Poly) : Poly := p.map (fun a => c * a)

def polyMul : Poly → Poly → Poly
  | [], _ => []
  | a :: p, q => polyAdd (polyScale a q) ((0 : ℚ) :: polyMul p q)

def polyPow (p : Poly) : Nat → Poly
  | 0 => [1]
  | n + 1 => polyMul p (polyPow p n)

def polyFromRoots (rs : List ℚ) : Poly :=
  rs.foldr (fun r acc => polyMul [-r, 1] acc) [1]

/-- Modelled from the spec: the controllable canonical realization used by
tf2ss (control.statesp / scipy, not under src): normalize by the leading
denominator coefficient, pad the numerator, companion-form A, B the first
unit vector, C from the padded numerator, D the feedthrough. -/
def tf2ssCore (num den : List ℚ) : Mat × Mat × Mat × Mat :=
  let a0 := den.headD 1
  let a := (den.map (fun x => x / a0)).tail
  let n := a.length
  let bfull := List.replicate (n + 1 - num.length) (0 : ℚ) ++ num.map (fun x => x / a0)
  let b0 := bfull.headD 0
  let brest := bfull.tail
  let A := (List.range n).map (fun i =>
    if i = 0 then a.map (fun x => -x)
    else (List.range n).map (fun j => if j + 1 = i then (1 : ℚ) else 0))
  let B := (List.range n).map (fun i => if i = 0 then [(1 : ℚ)] else [0])
  let C := [List.zipWith (fun bi ai => bi - b0 * ai) brest a]
  let D := [[b0]]
  (A, B, C, D)

/-- Continuous-time state space from numerator and denominator, as the
two-argument dcgain entry uses it. -/
def tf2ss (num den : List ℚ) : StateSpaceSys :=
  let m := tf2ssCore num den
  ⟨m.1, m.2.1, m.2.2.1, m.2.2.2, none⟩

/-- Same realization but keeping the sample time of the transfer function,
as the internal state-space conversion of an LTI object does. -/
def tf2ssD (t : TFSys) : StateSpaceSys :=
  let m := tf2ssCore t.num t.den
  ⟨m.1, m.2.1, m.2.2.1, m.2.2.2, t.dt⟩

/-- Modelled from the spec: zpk2ss (scipy, not under src) expands the root
sets into numerator and denominator polynomials and realizes them in
state-space form.  Real roots only: the claims exercise real data. -/
def zpk2ssSys (zs ps : List ℚ) (k : ℚ) : StateSpaceSys :=
  tf2ss ((polyScale k (polyFromRoots zs)).reverse) ((polyFromRoots ps).reverse)

/-- Modelled from the spec: the one-argument form ss(sys) (conversion of an
LTI object to state space, not under src) is the identity on state-space
objects and the canonical realization on transfer functions. -/
def ssOfLti : LtiModel → StateSpaceSys
  | .ss s => s
  | .tf t => tf2ssD t

/-- Steady-state gain D - C A^(-1) B of a state-space system, exactly the
formula of the source line gain = sys.D - sys.C * sys.A.I * sys.B, failing
when A has no inverse. -/
def ssdcgain (s : StateSpaceSys) : Except CtrlError Mat :=
  match matInv s.A with
  | none => .error .singularConversion
  | some ai => .ok (matSub s.D (matMul s.C (matMul ai s.B)))

/-- Python argument value for the variadic entry points: an array-like, a
scalar, or an LTI system object. -/
inductive PyArg where
  | arr (m : Mat)
  | scalar (x : ℚ)
  | sys (m : LtiModel)
deriving DecidableEq, Repr

/-- The dcgain entry point: dispatch on the received argument count exactly
as the source does (4 = A,B,C,D; 3 = Z,P,k; 2 = num,den; 1 = LTI object;
anything else raises), then the steady-state gain of the converted
state-space system. -/
def dcgain (args : List PyArg) : Except CtrlError Mat :=
  match args with
  | [a, b, c, d] =>
    match a, b, c, d with
    | .arr ma, .arr mb, .arr mc, .arr md => ssdcgain ⟨ma, mb, mc, md, none⟩
    | _, _, _, _ => .error (.typeError "dcgain expects array-like A, B, C, D matrices")
  | [z, p, k] =>
    match z, p, k with
    | .arr [zs], .arr [ps], .scalar kv => ssdcgain (zpk2ssSys zs ps kv)
    | _, _, _ => .error (.typeError "dcgain expects zero and pole arrays and a scalar gain")
  | [nu, de] =>
    match nu, de with
    | .arr [nus], .arr [des] => ssdcgain (tf2ss nus des)
    | _, _ => .error (.typeError "dcgain expects numerator and denominator arrays")
  | [s0] =>
    match s0 with
    | .sys m => ssdcgain (ssOfLti m)
    | _ => .error (.typeError "dcgain expects an LTI system")
  | _ => .error (.invalidArgument none "Function dcgain needs either 1, 2, 3 or 4 arguments.")

/-- Frequency-response data: magnitude, phase in degrees and frequency
arrays aligned by index. -/
structure FreqData where
  mag : List ℚ
  phase : List ℚ
  omega : List ℚ
deriving DecidableEq, Repr

def unwrapFrom (prev : ℚ) : List ℚ → List ℚ
  | [] => []
  | p :: ps =>
    let k : ℤ := round ((p - prev) / 360)
    let q := p - 360 * (k : ℚ)
    q :: unwrapFrom q ps

/-- Modelled from the spec: unwrap the phase (degrees) so consecutive
samples differ by at most half a turn. -/
def unwrapPhase : List ℚ → List ℚ
  | [] => []
  | p :: ps => p :: unwrapFrom p ps

/-- Modelled from the spec: scan consecutive samples (x, y, w) for the
signal x crossing the target; at each crossing linearly interpolate the
companion signal y and the frequency w at the exact crossing point. -/
def crossings (target : ℚ) : List (ℚ × ℚ × ℚ) → List (ℚ × ℚ)
  | p1 :: p2 :: rest =>
    let tail := crossings target (p2 :: rest)
    if (p1.1 - target) * (p2.1 - target) < 0 then
      let t := (target - p1.1) / (p2.1 - p1.1)
      (p1.2.1 + t * (p2.2.1 - p1.2.1), p1.2.2 + t * (p2.2.2 - p1.2.2)) :: tail
    else if p1.1 = target then (p1.2.1, p1.2.2) :: tail
    else tail
  | _ => []

def zip3 (a b c : List ℚ) : List (ℚ × ℚ × ℚ) := a.zip (b.zip c)

/-- Modelled from the spec: candidate gain margins, one per phase crossover
of the unwrapped phase through -180 degrees, each paired with its crossover
frequency; the margin is the reciprocal of the interpolated magnitude. -/
def gmCandidates (fd : FreqData) : List (ℚ × ℚ) :=
  (crossings (-180) (zip3 (unwrapPhase fd.phase) fd.mag fd.omega)).map
    (fun c => (1 / c.1, c.2))

/-- Modelled from the spec: candidate phase margins, one per gain crossover
of the magnitude through 1, each paired with its crossover frequency; the
margin is 180 degrees plus the interpolated phase. -/
def pmCandidates (fd : FreqData) : List (ℚ × ℚ) :=
  (crossings 1 (zip3 fd.mag (unwrapPhase fd.phase) fd.omega)).map
    (fun c => (180 + c.1, c.2))

/-- Select the candidate with the lowest margin (first component), keeping
the earliest on ties. -/
def selectMin : List (ℚ × ℚ) → Option (ℚ × ℚ)
  | [] => none
  | c :: cs => some (cs.foldl (fun b d => if d.1 < b.1 then d else b) c)

/-- Result six-tuple of stability_margins, in the order the source indexes
it: gain margin, phase margin, stability margin, frequency for the gain
margin (phase crossover), frequency for the phase margin (gain crossover),
frequency for the stability margin.  An absent crossover is the sentinel
none (the inf/nan convention of the numeric code). -/
structure StabMargins where
  gm : Option ℚ
  pm : Option ℚ
  sm : Option ℚ
  wg : Option ℚ
  wp : Option ℚ
  ws : Option ℚ
deriving DecidableEq, Repr

/-- Modelled from the spec: control.margins.stability_margins (not under
src).  Checks that the three arrays have equal lengths, finds all phase and
gain crossovers by interpolation on the unwrapped data, and keeps the
worst-case (lowest) margin of each kind together with its frequency.  The
stability-margin entries sm and ws are not described by the spec and are
unused by margin; they are left as the sentinel. -/
def stability_margins (fd : FreqData) : Except CtrlError StabMargins :=
  if fd.mag.length = fd.phase.length ∧ fd.phase.length = fd.omega.length then
    let g := selectMin (gmCandidates fd)
    let p := selectMin (pmCandidates fd)
    .ok ⟨g.map Prod.fst, p.map Prod.fst, none, g.map Prod.snd, p.map Prod.snd, none⟩
  else .error (.invalidArgument none "mag, phase and omega arrays must have equal lengths")

/-- Oracles for the transcendental numeric cores the spec delegates:
the augmented matrix exponential of the zoh method, the pole-zero map of
the matched method, and the frequency-response evaluation of a model along
a grid (spec section 6).  Theorems hold for every realization. -/
structure NumOracles where
  expmAB : Mat → Mat → ℚ → Mat × Mat
  matchedND : List ℚ → List ℚ → ℚ → List ℚ × List ℚ
  freqResp : LtiModel → FreqData

/-- Trivial oracle instantiation used by concrete witnesses. -/
def trivOracles : NumOracles :=
  ⟨fun a b _ => (a, b), fun n d _ => (n, d), fun _ => ⟨[], [], []⟩⟩

/-- Arguments of the variadic margin entry point: an LTI system, or
array-likes of magnitude, phase and frequency. -/
inductive MarginArg where
  | sys (m : LtiModel)
  | arr (xs : List ℚ)
deriving DecidableEq, Repr

/-- Return type of margin: gain margin, phase margin, gain-crossover
frequency, phase-crossover frequency, each possibly the sentinel. -/
abbrev MarginRet := Option ℚ × Option ℚ × Option ℚ × Option ℚ

/-- The return-line of the source: margin returns the entries 0, 1, 4 and 3
of the six-tuple of stability_margins, i.e. (gm, pm, wp, wg). -/
def marginFrom : Except CtrlError StabMargins → Except CtrlError MarginRet
  | .error e => .error e
  | .ok r => .ok (r.gm, r.pm, r.wp, r.wg)

/-- The margin entry point: one argument (an LTI system, analyzed through
its frequency response) or three arguments (magnitude, phase, frequency
arrays); any other count raises a value error reporting the received
count, as the source does. -/
def margin (orc : NumOracles) (args : List MarginArg) : Except CtrlError MarginRet :=
  if args.length = 1 then
    match args with
    | [.sys s] => marginFrom (stability_margins (orc.freqResp s))
    | _ => .error (.typeError "margin expects an LTI system")
  else if args.length = 3 then
    match args with
    | [.arr mg, .arr ph, .arr w] => marginFrom (stability_margins ⟨mg, ph, w⟩)
    | _ => .error (.typeError "margin expects mag, phase and omega arrays")
  else .error (.invalidArgument (some args.length) "Margin needs 1 or 3 arguments")

/-- Modelled from the spec: the Faddeev-LeVerrier recurrence computing the
characteristic polynomial coefficients of A and the matrix coefficients of
the adjugate of (sI - A), used by the state-space to transfer-function
conversion. -/
def flRecurrence (a : Mat) : List ℚ × List Mat :=
  let n := a.length
  let idm := matId n
  let start : Mat × ℚ × List ℚ × List Mat := (matScale 0 idm, 1, [], [])
  let res := (List.range n).foldl
    (fun st k0 =>
      let m := matAdd (matMul a st.1) (matScale st.2.1 idm)
      let c := -trace (matMul a m) / ((k0 : ℚ) + 1)
      (m, c, st.2.2.1 ++ [c], st.2.2.2 ++ [m]))
    start
  (res.2.2.1, res.2.2.2)

def entry00 (m : Mat) : ℚ := (m.headD []).headD 0

/-- Modelled from the spec: SISO state-space to transfer-function
conversion via the characteristic polynomial and the adjugate construction
(control.xferfcn, not under src); coefficients descending. -/
def ss2tf (s : StateSpaceSys) : TFSys :=
  let cm := flRecurrence s.A
  let den : List ℚ := 1 :: cm.1
  let cmb := cm.2.map (fun m => entry00 (matMul s.C (matMul m s.B)))
  let d0 := entry00 s.D
  let num := List.zipWith (fun x y => x + y) (den.map (fun c => d0 * c)) (0 :: cmb)
  ⟨num, den, s.dt⟩

def toTF : LtiModel → TFSys
  | .ss s => ss2tf s
  | .tf t => t

def ssIssiso (s : StateSpaceSys) : Bool :=
  (s.B.all (fun r => r.length == 1)) && (s.C.length == 1)

def issiso : LtiModel → Bool
  | .ss s => ssIssiso s
  | .tf _ => true

def isctime (m : LtiModel) : Bool := (ltiDt m).isNone

/-- Modelled from the spec: the zoh discretization extracts the discrete A
and B from the augmented matrix exponential (oracle), keeps C and D
unchanged, and stamps the result with the sample time. -/
def zohSS (orc : NumOracles) (s : StateSpaceSys) (ts : ℚ) : StateSpaceSys :=
  let ab := orc.expmAB s.A s.B ts
  ⟨ab.1, ab.2, s.C, s.D, some ts⟩

/-- Bilinear substitution: given ascending coefficients of a polynomial in
s, substitute s = (2/T)(z-1)/(z+1) and clear denominators by (z+1)^N,
yielding ascending coefficients in z. -/
def tustinPoly (a : Poly) (n : Nat) (t : ℚ) : Poly :=
  a.enum.foldl
    (fun acc ia =>
      polyAdd acc (polyScale (ia.2 * (2 / t) ^ ia.1)
        (polyMul (polyPow [-1, 1] ia.1) (polyPow [1, 1] (n - ia.1)))))
    []

/-- Modelled from the spec: the Tustin (bilinear) discretization of a SISO
transfer function, an exact rational substitution; the result carries the
sample time. -/
def tustinTF (t : TFSys) (ts : ℚ) : TFSys :=
  let numA := t.num.reverse
  let denA := t.den.reverse
  let n := max (numA.length - 1) (denA.length - 1)
  ⟨(tustinPoly numA n ts).reverse, (tustinPoly denA n ts).reverse, some ts⟩

/-- Modelled from the spec: the matched pole-zero discretization maps the
roots through the exponential (oracle); the result carries the sample
time. -/
def matchedTF (orc : NumOracles) (t : TFSys) (ts : ℚ) : TFSys :=
  let nd := orc.matchedND t.num t.den ts
  ⟨nd.1, nd.2, some ts⟩

/-- Modelled from the spec: control.dtime.sample_system (not under src).
Requires a continuous-time model; foh and impulse are declared
unimplemented; zoh applies the augmented-exponential method to a
state-space model; tustin and matched require a SISO model, convert it to
a transfer function and return a transfer function; any other method name
is rejected. -/
def sample_system (orc : NumOracles) (sysc : LtiModel) (ts : ℚ) (methodName : String) :
    Except CtrlError LtiModel :=
  if !(isctime sysc) then
    .error (.valueError "First argument must be a continuous time system")
  else if methodName = "foh" then .error (.notImplemented "foh")
  else if methodName = "impulse" then .error (.notImplemented "impulse")
  else if methodName = "zoh" then
    match sysc with
    | .ss s => .ok (.ss (zohSS orc s ts))
    | .tf _ => .error (.valueError "zoh discretization requires a state-space model")
  else if methodName = "tustin" then
    if issiso sysc then .ok (.tf (tustinTF (toTF sysc) ts))
    else .error (.unsupportedShape "tustin method requires a SISO system")
  else if methodName = "matched" then
    if issiso sysc then .ok (.tf (matchedTF orc (toTF sysc) ts))
    else .error (.unsupportedShape "matched method requires a SISO system")
  else .error (.valueError "Unsupported discretization method")

/-- Modelled from the spec: the internal conversion of an LTI object to
state space (control.statesp, not under src). -/
def _convertToStateSpace : LtiModel → LtiModel
  | .ss s => .ss s
  | .tf t => .ss (tf2ssD t)

/-- The c2d entry point: delegate to sample_system, then convert the result
back to state space exactly when the input was a StateSpace and the result
is not, as the source does. -/
def c2d (orc : NumOracles) (sysc : LtiModel) (ts : ℚ) (methodName : String) :
    Except CtrlError LtiModel :=
  match sample_system orc sysc ts methodName with
  | .error e => .error e
  | .ok sysd =>
    if isSS sysc && !(isSS sysd) then .ok (_convertToStateSpace sysd) else .ok sysd

/-- Complex number with rational parts, for the poles handled by damp. -/
structure Cplx where
  re : ℚ
  im : ℚ
deriving DecidableEq, Repr

/-- Modelled from the spec: the damp method of an LTI object (not under
src) returns, in pole order, the natural frequencies (the pole
magnitudes), the damping values -Re(p)/|p|, and the poles.  The magnitude
of each pole is supplied as data alongside the pole; theorems constrain it
to be the true magnitude through MagOk. -/
def ltiDamp (pm : List (Cplx × ℚ)) : List ℚ × List ℚ × List Cplx :=
  (pm.map (fun x => x.2), pm.map (fun x => -x.1.re / x.2), pm.map (fun x => x.1))

/-- The supplied magnitudes are the true pole magnitudes. -/
def MagOk (pm : List (Cplx × ℚ)) : Prop :=
  ∀ x ∈ pm, 0 ≤ x.2 ∧ x.2 ^ 2 = x.1.re ^ 2 + x.1.im ^ 2

/-- One printed line of the damp table: a real pole is rendered as
(real part, damping 1.0, frequency -real part); a complex pole as
(real part, imaginary part, damping, frequency). -/
inductive TableRow where
  | realRow (re d wn : ℚ)
  | cplxRow (re im d wn : ℚ)
deriving DecidableEq, Repr

/-- The printing loop of the source: zip the poles with the damping and
frequency values and render each line, branching on a negligible imaginary
part (absolute value below 10^(-12)). -/
def dampTable (poles : List Cplx) (damping wn : List ℚ) : List TableRow :=
  (poles.zip (damping.zip wn)).map (fun x =>
    if |x.1.im| < 1 / 1000000000000 then TableRow.realRow x.1.re 1 (-x.1.re)
    else TableRow.cplxRow x.1.re x.1.im x.2.1 x.2.2)

/-- The damp entry point: the returned triple (wn, damping, poles) comes
from the damp method of the system; the table is rendered only when
doprint is set and is returned here as a separate component standing for
the side-channel output. -/
def damp (sys : List (Cplx × ℚ)) (doprint : Bool) :
    (List ℚ × List ℚ × List Cplx) × List TableRow :=
  let r := ltiDamp sys
  ((r.1, r.2.1, r.2.2), if doprint then dampTable r.2.2 r.2.1 r.1 else [])

/-- Demonstration frequency data with two phase crossovers whose candidate
gain margins are 5 and 2, the smaller one at the higher frequency. -/
def demoMag : List ℚ := [1 / 10, 3 / 10, 7 / 10]

def demoPhase : List ℚ := [-170, -190, -170]

def demoW : List ℚ := [1, 2, 3]

def demoFd : FreqData := ⟨demoMag, demoPhase, demoW⟩

/-! ### Helper lemmas -/

lemma foldlMin_le (cs : List (ℚ × ℚ)) : ∀ b : ℚ × ℚ,
    (cs.foldl (fun b d => if d.1 < b.1 then d else b) b).1 ≤ b.1 ∧
    ∀ y ∈ cs, (cs.foldl (fun b d => if d.1 < b.1 then d else b) b).1 ≤ y.1 := by
  induction cs with
  | nil => intro b; simp
  | cons d cs ih =>
    intro b
    simp only [List.foldl_cons]
    have h := ih (if d.1 < b.1 then d else b)
    have hb : (if d.1 < b.1 then d else b).1 ≤ b.1 := by
      by_cases hd : d.1 < b.1
      · simp [hd]; exact le_of_lt hd
      · simp [hd]
    have hd2 : (if d.1 < b.1 then d else b).1 ≤ d.1 := by
      by_cases hd : d.1 < b.1
      · simp [hd]
      · simp [hd]; exact le_of_not_lt hd
    refine ⟨le_trans h.1 hb, ?_⟩
    intro y hy
    rcases List.mem_cons.mp hy with hy1 | hy2
    · subst hy1; exact le_trans h.1 hd2
    · exact h.2 y hy2

lemma foldlMin_mem (cs : List (ℚ × ℚ)) : ∀ b : ℚ × ℚ,
    cs.foldl (fun b d => if d.1 < b.1 then d else b) b = b ∨
    cs.foldl (fun b d => if d.1 < b.1 then d else b) b ∈ cs := by
  induction cs with
  | nil => intro b; left; rfl
  | cons d cs ih =>
    intro b
    simp only [List.foldl_cons]
    rcases ih (if d.1 < b.1 then d else b) with h | h
    · rw [h]
      by_cases hd : d.1 < b.1
      · right; simp [hd]
      · left; simp [hd]
    · right; exact List.mem_cons_of_mem _ h

lemma selectMin_spec (l : List (ℚ × ℚ)) (x : ℚ × ℚ) (h : selectMin l = some x) :
    x ∈ l ∧ ∀ y ∈ l, x.1 ≤ y.1 := by
  cases l with
  | nil => cases h
  | cons c cs =>
    have hx : x = cs.foldl (fun b d => if d.1 < b.1 then d else b) c := by
      simpa [selectMin] using h.symm
    subst hx
    constructor
    · rcases foldlMin_mem cs c with h1 | h1
      · rw [h1]; exact List.mem_cons_self c cs
      · exact List.mem_cons_of_mem _ h1
    · intro y hy
      rcases List.mem_cons.mp hy with hy1 | hy2
      · subst hy1; exact (foldlMin_le cs y).1
      · exact (foldlMin_le cs c).2 y hy2

lemma selectMin_isSome_of_mem (l : List (ℚ × ℚ)) (c : ℚ × ℚ) (hc : c ∈ l) :
    ∃ x, selectMin l = some x := by
  cases l with
  | nil => cases hc
  | cons a cs => exact ⟨_, rfl⟩

lemma zip3_map {α β γ δ : Type} (f : α → β) (g : α → γ) (h : α → δ) (l : List α) :
    (l.map f).zip ((l.map g).zip (l.map h)) = l.map (fun a => (f a, g a, h a)) := by
  induction l with
  | nil => rfl
  | cons a l ih => simp [ih]

lemma damp_table_eq (sys : List (Cplx × ℚ)) :
    (damp sys true).2 = sys.map (fun x =>
      if |x.1.im| < 1 / 1000000000000 then TableRow.realRow x.1.re 1 (-x.1.re)
      else TableRow.cplxRow x.1.re x.1.im (-x.1.re / x.2) x.2) := by
  show dampTable (sys.map (fun x => x.1)) (sys.map (fun x => -x.1.re / x.2))
      (sys.map (fun x => x.2)) = _
  unfold dampTable
  rw [zip3_map (fun x => x.1) (fun x => -x.1.re / x.2) (fun x => x.2) sys, List.map_map]
  rfl

lemma matInv_eq_none_of_det (m : Mat) (h : det m = 0) : matInv m = none := by
  unfold matInv
  simp [h]

/-! ### Claim theorems -/

/-- C1: dcgain accepts all four entry forms (state-space matrices,
zeros/poles/gain, numerator/denominator, LTI object), converts each to
state space and returns D - C A^(-1) B; on the fixed example
A=[[-2,0],[0,-3]], B=[[1],[1]], C=[[1,1]], D=[[0]] the gain is 5/6. -/
theorem dcgain_state_space_formula :
    (∀ a b c d : Mat, dcgain [.arr a, .arr b, .arr c, .arr d] =
        match matInv a with
        | none => .error .singularConversion
        | some ai => .ok (matSub d (matMul c (matMul ai b)))) ∧
    (∀ zs ps k, dcgain [.arr [zs], .arr [ps], .scalar k] =
        match matInv (zpk2ssSys zs ps k).A with
        | none => .error .singularConversion
        | some ai => .ok (matSub (zpk2ssSys zs ps k).D
            (matMul (zpk2ssSys zs ps k).C (matMul ai (zpk2ssSys zs ps k).B)))) ∧
    (∀ nus des, dcgain [.arr [nus], .arr [des]] =
        match matInv (tf2ss nus des).A with
        | none => .error .singularConversion
        | some ai => .ok (matSub (tf2ss nus des).D
            (matMul (tf2ss nus des).C (matMul ai (tf2ss nus des).B)))) ∧
    (∀ m : LtiModel, dcgain [.sys m] =
        match matInv (ssOfLti m).A with
        | none => .error .singularConversion
        | some ai => .ok (matSub (ssOfLti m).D
            (matMul (ssOfLti m).C (matMul ai (ssOfLti m).B)))) ∧
    dcgain [.arr [[-2, 0], [0, -3]], .arr [[1], [1]], .arr [[1, 1]], .arr [[0]]] =
      .ok [[5 / 6]] :=
  ⟨fun _ _ _ _ => rfl, fun _ _ _ => rfl, fun _ _ => rfl, fun _ => rfl,
    by with_unfolding_all rfl⟩

/-- C7: a singular state matrix A makes dcgain fail with the singular
conversion error (the inverse does not exist) and no gain is returned. -/
theorem dcgain_singular :
    (∀ a b c d : Mat, det a = 0 →
        dcgain [.arr a, .arr b, .arr c, .arr d] = .error .singularConversion) ∧
    (∀ s : StateSpaceSys, det s.A = 0 →
        dcgain [.sys (.ss s)] = .error .singularConversion) := by
  constructor
  · intro a b c d h
    show ssdcgain ⟨a, b, c, d, none⟩ = _
    unfold ssdcgain
    rw [show matInv (⟨a, b, c, d, none⟩ : StateSpaceSys).A = none from
      matInv_eq_none_of_det a h]
  · intro s h
    show ssdcgain s = _
    unfold ssdcgain
    rw [matInv_eq_none_of_det s.A h]

/-- C7 witness: the integrator A=[[0]] is singular and dcgain rejects it. -/
theorem dcgain_singular_witness :
    dcgain [.arr [[0]], .arr [[1]], .arr [[1]], .arr [[0]]] = .error .singularConversion :=
  dcgain_singular.1 [[0]] [[1]] [[1]] [[0]] (by with_unfolding_all rfl)

/-- C9: dcgain with an argument count other than 1, 2, 3 or 4 fails with
the wrong-arity error; 4 arguments are read as state-space matrices, 3 as
zeros/poles/gain, 2 as numerator/denominator, 1 as an LTI object. -/
theorem dcgain_arity_dispatch :
    (∀ args : List PyArg, args.length ≠ 1 → args.length ≠ 2 → args.length ≠ 3 →
        args.length ≠ 4 →
        dcgain args = .error (.invalidArgument none
          "Function dcgain needs either 1, 2, 3 or 4 arguments.")) ∧
    (∀ a b c d : Mat, dcgain [.arr a, .arr b, .arr c, .arr d] =
        ssdcgain ⟨a, b, c, d, none⟩) ∧
    (∀ zs ps k, dcgain [.arr [zs], .arr [ps], .scalar k] = ssdcgain (zpk2ssSys zs ps k)) ∧
    (∀ nus des, dcgain [.arr [nus], .arr [des]] = ssdcgain (tf2ss nus des)) ∧
    (∀ m : LtiModel, dcgain [.sys m] = ssdcgain (ssOfLti m)) := by
  refine ⟨?_, fun _ _ _ _ => rfl, fun _ _ _ => rfl, fun _ _ => rfl, fun _ => rfl⟩
  intro args h1 h2 h3 h4
  match args with
  | [] => rfl
  | [_] => exact absurd rfl h1
  | [_, _] => exact absurd rfl h2
  | [_, _, _] => exact absurd rfl h3
  | [_, _, _, _] => exact absurd rfl h4
  | _ :: _ :: _ :: _ :: _ :: _ => rfl

/-- C9 witness: a zero-argument call fails with the wrong-arity error. -/
theorem dcgain_arity_dispatch_witness :
    dcgain [] = .error (.invalidArgument none
      "Function dcgain needs either 1, 2, 3 or 4 arguments.") :=
  dcgain_arity_dispatch.1 [] (by decide) (by decide) (by decide) (by decide)

/-- C8: the returned triple (natural frequencies, damping values, poles) of
damp is identical for every value of the doprint flag; the table rendering
is a side channel that never feeds back into the returned values. -/
theorem damp_doprint_noninterference :
    ∀ (sys : List (Cplx × ℚ)) (b1 b2 : Bool), (damp sys b1).1 = (damp sys b2).1 :=
  fun _ _ _ => rfl

/-- C4: a pole with negligible imaginary part (below 10^(-12) in absolute
value) is reported with damping 1 and natural frequency -Re(p); every
other pole is reported with its true values: natural frequency the pole
magnitude m (characterized by m being nonnegative with m^2 the squared
modulus) and damping -Re(p)/m. -/
theorem damp_pole_rows (sys : List (Cplx × ℚ)) (hmag : MagOk sys) (i : ℕ)
    (p : Cplx) (m : ℚ) (hi : sys.get? i = some (p, m)) :
    (damp sys true).2.get? i =
      some (if |p.im| < 1 / 1000000000000 then TableRow.realRow p.re 1 (-p.re)
            else TableRow.cplxRow p.re p.im (-p.re / m) m) ∧
    0 ≤ m ∧ m ^ 2 = p.re ^ 2 + p.im ^ 2 := by
  constructor
  · rw [damp_table_eq, List.get?_map, hi]; rfl
  · exact hmag (p, m) (List.get?_mem hi)

/-- C4 witness: for the pole -3+4i with magnitude 5 the table reports
damping 3/5 and frequency 5. -/
theorem damp_pole_rows_witness :
    (damp [(⟨-2, 0⟩, 2), (⟨-3, 4⟩, 5)] true).2.get? 1 =
      some (TableRow.cplxRow (-3) 4 (3 / 5) 5) ∧
    (0 : ℚ) ≤ 5 ∧ (5 : ℚ) ^ 2 = (-3 : ℚ) ^ 2 + (4 : ℚ) ^ 2 := by
  have hm : MagOk [((⟨-2, 0⟩ : Cplx), (2 : ℚ)), (⟨-3, 4⟩, 5)] := by
    intro x hx
    rcases List.mem_cons.mp hx with h | hx2
    · subst h; exact ⟨by decide, by with_unfolding_all rfl⟩
    · rcases List.mem_cons.mp hx2 with h | hx3
      · subst h; exact ⟨by decide, by with_unfolding_all rfl⟩
      · cases hx3
  have h := damp_pole_rows [(⟨-2, 0⟩, 2), (⟨-3, 4⟩, 5)] hm 1 ⟨-3, 4⟩ 5 rfl
  refine ⟨?_, h.2⟩
  rw [h.1]
  with_unfolding_all rfl

/-- C2: a margin call whose argument count is neither 1 nor 3 fails with
the invalid-argument error reporting the received count, and no margin
tuple is returned. -/
theorem margin_arity_error (orc : NumOracles) (args : List MarginArg)
    (h1 : args.length ≠ 1) (h3 : args.length ≠ 3) :
    margin orc args =
      .error (.invalidArgument (some args.length) "Margin needs 1 or 3 arguments") := by
  unfold margin
  rw [if_neg h1, if_neg h3]

/-- C2 witness: two positional arguments are rejected with the count 2. -/
theorem margin_arity_error_witness :
    margin trivOracles [.arr [], .arr []] =
      .error (.invalidArgument (some 2) "Margin needs 1 or 3 arguments") :=
  margin_arity_error trivOracles [.arr [], .arr []] (by decide) (by decide)

lemma stability_margins_ok (fd : FreqData)
    (hlen : fd.mag.length = fd.phase.length ∧ fd.phase.length = fd.omega.length) :
    stability_margins fd = .ok
      ⟨(selectMin (gmCandidates fd)).map Prod.fst, (selectMin (pmCandidates fd)).map Prod.fst,
        none, (selectMin (gmCandidates fd)).map Prod.snd,
        (selectMin (pmCandidates fd)).map Prod.snd, none⟩ := by
  unfold stability_margins
  rw [if_pos hlen]

/-- C5: with several crossovers of one kind, the margin of that kind that
stability_margins reports is the lowest candidate margin (it is a
candidate and is at most every candidate), not the margin at the
lowest-frequency crossing. -/
theorem margins_worst_case (fd : FreqData)
    (hlen : fd.mag.length = fd.phase.length ∧ fd.phase.length = fd.omega.length) :
    (∀ c ∈ gmCandidates fd, ∃ s g, stability_margins fd = .ok s ∧ s.gm = some g ∧
        g ≤ c.1 ∧ g ∈ (gmCandidates fd).map Prod.fst) ∧
    (∀ c ∈ pmCandidates fd, ∃ s p, stability_margins fd = .ok s ∧ s.pm = some p ∧
        p ≤ c.1 ∧ p ∈ (pmCandidates fd).map Prod.fst) := by
  constructor
  · intro c hc
    obtain ⟨x, hx⟩ := selectMin_isSome_of_mem _ c hc
    obtain ⟨hmem, hle⟩ := selectMin_spec _ x hx
    refine ⟨_, x.1, stability_margins_ok fd hlen, ?_, hle c hc, List.mem_map_of_mem _ hmem⟩
    show (selectMin (gmCandidates fd)).map Prod.fst = some x.1
    rw [hx]; rfl
  · intro c hc
    obtain ⟨x, hx⟩ := selectMin_isSome_of_mem _ c hc
    obtain ⟨hmem, hle⟩ := selectMin_spec _ x hx
    refine ⟨_, x.1, stability_margins_ok fd hlen, ?_, hle c hc, List.mem_map_of_mem _ hmem⟩
    show (selectMin (pmCandidates fd)).map Prod.fst = some x.1
    rw [hx]; rfl

/-- C5 witness: the demonstration data has phase-crossover candidates with
gain margins 5 (at frequency 3/2) and 2 (at frequency 5/2); the reported
gain margin is bounded by 5 and is one of the candidates (it evaluates to
2, the lower one, although 5 belongs to the lower-frequency crossing). -/
theorem margins_worst_case_witness :
    ((5 : ℚ), (3 : ℚ) / 2) ∈ gmCandidates demoFd ∧
    (∃ s g, stability_margins demoFd = .ok s ∧ s.gm = some g ∧
        g ≤ (5 : ℚ) ∧ g ∈ (gmCandidates demoFd).map Prod.fst) ∧
    stability_margins demoFd = .ok ⟨some 2, none, none, some (5 / 2), none, none⟩ := by
  have hmem : ((5 : ℚ), (3 : ℚ) / 2) ∈ gmCandidates demoFd := by
    rw [show gmCandidates demoFd = [(5, 3 / 2), (2, 5 / 2)] from by with_unfolding_all rfl]
    exact List.mem_cons_self _ _
  exact ⟨hmem, (margins_worst_case demoFd ⟨rfl, rfl⟩).1 (5, 3 / 2) hmem,
    by with_unfolding_all rfl⟩

/-- C6: a successful margin call returns the 4-tuple (gain margin, phase
margin, gain-crossover frequency, phase-crossover frequency), where the
gain-crossover frequency is the frequency of the very gain crossover that
produced the phase margin and the phase-crossover frequency is the
frequency of the very phase crossover that produced the gain margin; a
missing crossover yields the sentinel in the tuple of a successful call,
not an error. -/
theorem margin_result_order (orc : NumOracles) :
    (∀ mg ph w : List ℚ, mg.length = ph.length → ph.length = w.length →
        margin orc [.arr mg, .arr ph, .arr w] =
          .ok ((selectMin (gmCandidates ⟨mg, ph, w⟩)).map Prod.fst,
               (selectMin (pmCandidates ⟨mg, ph, w⟩)).map Prod.fst,
               (selectMin (pmCandidates ⟨mg, ph, w⟩)).map Prod.snd,
               (selectMin (gmCandidates ⟨mg, ph, w⟩)).map Prod.snd)) ∧
    (∀ s, margin orc [.sys s] = marginFrom (stability_margins (orc.freqResp s))) ∧
    (∀ mg ph w : List ℚ, mg.length = ph.length → ph.length = w.length →
        gmCandidates ⟨mg, ph, w⟩ = [] →
        ∃ ret, margin orc [.arr mg, .arr ph, .arr w] = .ok ret ∧ ret.1 = none) := by
  have h1 : ∀ mg ph w : List ℚ, mg.length = ph.length → ph.length = w.length →
      margin orc [.arr mg, .arr ph, .arr w] =
        .ok ((selectMin (gmCandidates ⟨mg, ph, w⟩)).map Prod.fst,
             (selectMin (pmCandidates ⟨mg, ph, w⟩)).map Prod.fst,
             (selectMin (pmCandidates ⟨mg, ph, w⟩)).map Prod.snd,
             (selectMin (gmCandidates ⟨mg, ph, w⟩)).map Prod.snd) := by
    intro mg ph w ha hb
    show marginFrom (stability_margins ⟨mg, ph, w⟩) = _
    rw [stability_margins_ok ⟨mg, ph, w⟩ ⟨ha, hb⟩]
    rfl
  refine ⟨h1, fun s => rfl, ?_⟩
  intro mg ph w ha hb hgm
  refine ⟨_, h1 mg ph w ha hb, ?_⟩
  show (selectMin (gmCandidates ⟨mg, ph, w⟩)).map Prod.fst = none
  rw [hgm]; rfl

/-- C6 witness: on the demonstration data margin succeeds and returns the
gain margin 2 with its phase-crossover frequency 5/2 in the fourth slot,
and the sentinel for the missing gain crossover in the second and third
slots. -/
theorem margin_result_order_witness :
    margin trivOracles [.arr demoMag, .arr demoPhase, .arr demoW] =
      .ok (some 2, none, none, some (5 / 2)) := by
  have h := (margin_result_order trivOracles).1 demoMag demoPhase demoW rfl rfl
  rw [h]
  with_unfolding_all rfl

lemma sample_system_tf_not_ss (orc : NumOracles) (t : TFSys) (ts : ℚ)
    (methodName : String) (sysd : LtiModel)
    (h : sample_system orc (.tf t) ts methodName = .ok sysd) : isSS sysd = false := by
  unfold sample_system at h
  split_ifs at h <;> simp_all [isSS]
  all_goals subst h; rfl

/-- C3: when a state-space input is discretized into a non-state-space
result (as tustin and matched produce transfer functions), c2d returns the
result converted back to state space; a transfer-function input is
returned exactly as sample_system produced it, and that result is never a
state-space object, so a transfer-function input stays a transfer
function. -/
theorem c2d_reconversion (orc : NumOracles) :
    (∀ (s : StateSpaceSys) (ts : ℚ) (methodName : String) (sysd : LtiModel),
        sample_system orc (.ss s) ts methodName = .ok sysd → isSS sysd = false →
        c2d orc (.ss s) ts methodName = .ok (_convertToStateSpace sysd) ∧
          isSS (_convertToStateSpace sysd) = true) ∧
    (∀ (t : TFSys) (ts : ℚ) (methodName : String) (sysd : LtiModel),
        sample_system orc (.tf t) ts methodName = .ok sysd →
        c2d orc (.tf t) ts methodName = .ok sysd ∧ isSS sysd = false) := by
  constructor
  · intro s ts mn sysd h hss
    have hconv : isSS (_convertToStateSpace sysd) = true := by
      cases sysd with
      | ss s2 => simp [isSS] at hss
      | tf t2 => rfl
    refine ⟨?_, hconv⟩
    unfold c2d
    rw [h]
    have hcond : (isSS (.ss s) && !(isSS sysd)) = true := by rw [hss]; rfl
    show (if (isSS (LtiModel.ss s) && !isSS sysd) = true then
        Except.ok (_convertToStateSpace sysd) else Except.ok sysd) =
      Except.ok (_convertToStateSpace sysd)
    rw [if_pos hcond]
  · intro t ts mn sysd h
    have hns := sample_system_tf_not_ss orc t ts mn sysd h
    constructor
    · unfold c2d
      rw [h]
      simp [isSS]
    · exact hns

/-- C3 witness: the SISO state-space system with A=[[-1]] discretized with
tustin at sample time 2 yields a transfer function, and c2d converts it
back to a state-space object. -/
theorem c2d_reconversion_witness :
    c2d trivOracles (.ss ⟨[[-1]], [[1]], [[1]], [[0]], none⟩) 2 "tustin" =
      .ok (_convertToStateSpace (.tf ⟨[1, 1], [2, 0], some 2⟩)) ∧
    isSS (_convertToStateSpace (.tf ⟨[1, 1], [2, 0], some 2⟩)) = true :=
  (c2d_reconversion trivOracles).1 ⟨[[-1]], [[1]], [[1]], [[0]], none⟩ 2 "tustin"
    (.tf ⟨[1, 1], [2, 0], some 2⟩) (by with_unfolding_all rfl) rfl

/-- C10: for a non-state-space input c2d returns exactly the value of
sample_system, unchanged; and c2d adds no checks of its own on any input:
it fails with an error precisely when sample_system fails with that
error (continuity of the input, the sample time and the method name are
examined, or not, only inside sample_system). -/
theorem c2d_delegation (orc : NumOracles) :
    (∀ (t : TFSys) (ts : ℚ) (methodName : String),
        c2d orc (.tf t) ts methodName = sample_system orc (.tf t) ts methodName) ∧
    (∀ (sysc : LtiModel) (ts : ℚ) (methodName : String) (e : CtrlError),
        sample_system orc sysc ts methodName = .error e ↔
          c2d orc sysc ts methodName = .error e) := by
  constructor
  · intro t ts mn
    unfold c2d
    cases h : sample_system orc (.tf t) ts mn with
    | error e => rfl
    | ok sysd => simp [isSS]
  · intro sysc ts mn e
    unfold c2d
    cases h : sample_system orc sysc ts mn with
    | error e2 => simp
    | ok sysd =>
      constructor
      · intro hc; cases hc
      · intro hc
        by_cases hb : isSS sysc && !(isSS sysd) <;> simp [hb] at hc

/-- C10 witness: a transfer-function input with the unimplemented foh
method: c2d forwards the not-implemented failure of sample_system
untouched. -/
theorem c2d_delegation_witness :
    c2d trivOracles (.tf ⟨[1], [1, 1], none⟩) 1 "foh" =
      sample_system trivOracles (.tf ⟨[1], [1, 1], none⟩) 1 "foh" :=
  (c2d_delegation trivOracles).1 ⟨[1], [1, 1], none⟩ 1 "foh"

end ControlMatlab
